import Mathlib

/-
  Verification of the last.fm aggregation pipeline in `parse_music_data.py`.

  The script has three stages:
  * `create_user_country_dict` reads the profile table and builds a
    user-id -> country dictionary (skipping the header row and rows whose
    country field is the empty string), then pickles it as "user_country".
  * `create_plays_dict` reads the play-event table and builds a nested
    year -> user -> artist -> count dictionary, then pickles it as "plays".
  * `create_country_artist_dict` unpickles both, and for every year builds a
    country -> artist -> total dictionary (skipping users that are missing
    from the user-country dictionary via try/except KeyError), pickling each
    year's result as "<year>_country_artist".

  Python dictionaries are modelled as insertion-ordered association lists
  with string keys; Python exceptions (IndexError from `row[i]`, KeyError
  from `d[k]`, the unpickling failure for a missing file) are modelled with
  `Except PyErr`.  Strings are Lean `String`s; `str.split('-')` is modelled
  character by character by `splitChar`.
-/

namespace MusicData

/-- A Python dict with string keys: an insertion-ordered association list.
Dicts built by the code always have pairwise-distinct keys. -/
abbrev Dict (α : Type) : Type := List (String × α)

/-- Dictionary lookup `d.get(k)`: the first binding wins. -/
def dget {α : Type} : Dict α → String → Option α
  | [], _ => none
  | (k, v) :: rest, key => if k = key then some v else dget rest key

/-- Dictionary assignment `d[key] = v`: update the binding in place, or
append a fresh binding at the end (Python dicts keep insertion order). -/
def dset {α : Type} : Dict α → String → α → Dict α
  | [], key, v => [(key, v)]
  | (k, w) :: rest, key, v =>
      if k = key then (k, v) :: rest else (k, w) :: dset rest key v

/-- The Python exceptions the script can raise, plus the spec's recommended
`MalformedRecordError` (which the script never raises). -/
inductive PyErr : Type
  | indexError      -- `row[i]` with `i` out of bounds
  | keyError        -- `d[k]` with `k` absent
  | notFoundError   -- unpickling a logical name that was never saved
  | typeError       -- a loaded blob does not have the expected shape
  | malformedRecord -- the spec's `MalformedRecordError`; never raised here
  deriving DecidableEq

/-- `row[i]` on a tab-split record: raises IndexError when out of bounds. -/
def getF (row : List String) (i : Nat) : Except PyErr String :=
  match row.get? i with
  | some s => Except.ok s
  | none => Except.error PyErr.indexError

/-- Total field access for rows known to be long enough: `row[i]`, with
`""` out of bounds (never hit under the length hypotheses used below). -/
def fld (row : List String) (i : Nat) : String :=
  (row.get? i).getD ""

/-- `d[k]` on a dict: raises KeyError when the key is absent
(used by `create_country_artist_dict`'s `country = user_dict[user]`). -/
def dget_exc {α : Type} (d : Dict α) (k : String) : Except PyErr α :=
  match dget d k with
  | some v => Except.ok v
  | none => Except.error PyErr.keyError

/-- The loop body of `create_user_country_dict` for one non-header row:
`if row[3] != '': user_country[row[0]] = row[3]`. -/
def user_country_step (d : Dict String) (row : List String) :
    Except PyErr (Dict String) := do
  let c ← getF row 3
  if c = "" then
    return d
  else
    let u ← getF row 0
    return dset d u c

/-- `create_user_country_dict` over in-memory rows: the first row is the
header and is discarded, the rest are folded through `user_country_step`. -/
def create_user_country_dict (rows : List (List String)) :
    Except PyErr (Dict String) :=
  match rows with
  | [] => Except.ok []
  | _ :: rest => rest.foldlM user_country_step []

/-- Python's `s.split(sep)` for a one-character separator, on the character
list of the string.  Always returns a non-empty list of pieces. -/
def splitChar (sep : Char) : List Char → List (List Char)
  | [] => [[]]
  | c :: rest =>
      if c = sep then [] :: splitChar sep rest
      else
        match splitChar sep rest with
        | [] => [[c]]
        | h :: t => (c :: h) :: t

/-- `year = timestamp.split('-')[0]` from `create_plays_dict`. -/
def yearOf (ts : String) : String :=
  String.mk ((splitChar '-' ts.data).headD [])

/-- The artist -> play-count level of the plays dictionary. -/
abbrev ArtistTally := Dict Nat

/-- The user -> artist -> play-count level of the plays dictionary. -/
abbrev UserTally := Dict ArtistTally

/-- The full year -> user -> artist -> play-count dictionary. -/
abbrev Tally := Dict UserTally

/-- The nested insert of `create_plays_dict`: the year / user / artist
existence checks, creating inner dicts on first encounter and incrementing
the leaf count (`plays[year][user][artist] += 1` or `= 1`). -/
def plays_insert (plays : Tally) (year user artist : String) : Tally :=
  match dget plays year with
  | some yd =>
      match dget yd user with
      | some ud =>
          match dget ud artist with
          | some n => dset plays year (dset yd user (dset ud artist (n + 1)))
          | none => dset plays year (dset yd user (dset ud artist 1))
      | none => dset plays year (dset yd user (dset [] artist 1))
  | none => dset plays year (dset [] user (dset [] artist 1))

/-- The loop body of `create_plays_dict` for one event row: reads
`row[0]`, `row[1]`, `row[3]`, derives the year, and inserts. -/
def plays_step (plays : Tally) (row : List String) : Except PyErr Tally := do
  let user ← getF row 0
  let timestamp ← getF row 1
  let artist ← getF row 3
  return plays_insert plays (yearOf timestamp) user artist

/-- `create_plays_dict` over in-memory rows (no header row). -/
def create_plays_dict (rows : List (List String)) : Except PyErr Tally :=
  rows.foldlM plays_step []

/-- The total restriction of `create_plays_dict` to rows with enough
fields: the same fold with infallible field access. -/
def plays_run (rows : List (List String)) : Tally :=
  rows.foldl
    (fun t r => plays_insert t (yearOf (fld r 1)) (fld r 0) (fld r 3)) []

/-- The inner artist loop body of `create_country_artist_dict`:
`country_artist[country][artist] += plays_dict[year][user][artist]`, or
initialisation to that value when the artist key is new.  The `none` case
models the KeyError `country_artist[country]` would raise; the caller has
just ensured the country key is present, so it is unreachable there. -/
def ca_step (country : String) (ca : Dict ArtistTally) (artist : String)
    (n : Nat) : Dict ArtistTally :=
  match dget ca country with
  | some cd =>
      match dget cd artist with
      | some m => dset ca country (dset cd artist (m + n))
      | none => dset ca country (dset cd artist n)
  | none => ca

/-- The per-user body of `create_country_artist_dict`'s year loop:
`try: country = user_dict[user] except KeyError: continue`, then the
`country not in country_artist` check, then the artist loop. -/
def join_user (index : Dict String) (ca : Dict ArtistTally) (user : String)
    (ud : ArtistTally) : Dict ArtistTally :=
  match dget_exc index user with
  | Except.error _ => ca
  | Except.ok country =>
      let ca1 := if (dget ca country).isSome then ca else dset ca country []
      ud.foldl (fun acc p => ca_step country acc p.1 p.2) ca1

/-- One year's `country_artist` dictionary, as built by the year loop of
`create_country_artist_dict` from the user-country dict and that year's
slice of the plays dict. -/
def create_country_artist_year (index : Dict String) (yd : UserTally) :
    Dict ArtistTally :=
  yd.foldl (fun ca p => join_user index ca p.1 p.2) []

/-- A pickled value: one of the three dictionary shapes the script saves. -/
inductive Blob : Type
  | uc : Dict String → Blob
  | pl : Tally → Blob
  | ca : Dict ArtistTally → Blob
  deriving DecidableEq

/-- The pickle directory, as a mapping from logical file name to blob. -/
abbrev Store := Dict Blob

/-- `store_dict_pickle(file_name, dictionary)`: save under the name. -/
def store_dict_pickle (store : Store) (file_name : String) (d : Blob) : Store :=
  dset store file_name d

/-- `load_dict_pickle(file_name)`: load the named blob, failing when the
name was never saved (opening the missing file raises). -/
def load_dict_pickle (store : Store) (file_name : String) :
    Except PyErr Blob :=
  match dget store file_name with
  | some b => Except.ok b
  | none => Except.error PyErr.notFoundError

/-- `create_country_artist_dict`: load `"user_country"` and `"plays"`,
then for each year build its country-artist dictionary and save it as
`"<year>_country_artist"`.  Returns the resulting store. -/
def create_country_artist_dict (store : Store) : Except PyErr Store := do
  let bu ← load_dict_pickle store "user_country"
  let bp ← load_dict_pickle store "plays"
  match bu, bp with
  | Blob.uc user_dict, Blob.pl plays_dict =>
      return plays_dict.foldl
        (fun st p =>
          store_dict_pickle st (p.1 ++ "_country_artist")
            (Blob.ca (create_country_artist_year user_dict p.2)))
        store
  | _, _ => Except.error PyErr.typeError

/-- The store after the joiner's per-year save loop: one
`"<year>_country_artist"` entry saved per year of the plays dict. -/
def joiner_saves (index : Dict String) (t : Tally) (store : Store) : Store :=
  t.foldl
    (fun st p =>
      store_dict_pickle st (p.1 ++ "_country_artist")
        (Blob.ca (create_country_artist_year index p.2)))
    store

/-- The whole pipeline: build and save the user-country dict, build and
save the plays dict, then run the joiner over the store. -/
def run_pipeline (profileRows eventRows : List (List String)) (store : Store) :
    Except PyErr Store := do
  let uc ← create_user_country_dict profileRows
  let t ← create_plays_dict eventRows
  create_country_artist_dict
    (store_dict_pickle (store_dict_pickle store "user_country" (Blob.uc uc))
      "plays" (Blob.pl t))

/-! Spec-side characterisations used to state the claims. -/

/-- The spec's phrasing of the year derivation: the substring of the
timestamp strictly before its first `-`, the whole string if none. -/
def yearSpecOf (ts : String) : String :=
  String.mk (ts.data.takeWhile (fun c => c ≠ '-'))

/-- The country the index should finally record for user `u` given the
non-header rows: the country field of the last row for `u` whose country
field is non-empty, if any. -/
def lastCountry (rows : List (List String)) (u : String) : Option String :=
  match rows with
  | [] => none
  | r :: rest =>
      lastCountry rest u <|>
        (if fld r 0 = u ∧ fld r 3 ≠ "" then some (fld r 3) else none)

/-- The pure result of `create_user_country_dict` on rows with enough
fields: drop the header, fold the infallible step. -/
def ucd_run (rows : List (List String)) (d : Dict String) : Dict String :=
  rows.foldl
    (fun d r => if fld r 3 = "" then d else dset d (fld r 0) (fld r 3)) d

/-- `create_user_country_dict` without the fallible field accesses. -/
def ucd_pure (rows : List (List String)) : Dict String :=
  match rows with
  | [] => []
  | _ :: rest => ucd_run rest []

/-- Number of event rows deriving exactly this (year, user, artist). -/
def countTriple (rows : List (List String)) (y u a : String) : Nat :=
  rows.countP
    (fun r => decide (yearOf (fld r 1) = y ∧ fld r 0 = u ∧ fld r 3 = a))

/-- Number of event rows for this user in this year. -/
def countYU (rows : List (List String)) (y u : String) : Nat :=
  rows.countP (fun r => decide (yearOf (fld r 1) = y ∧ fld r 0 = u))

/-- Leaf lookup in an artist tally, zero when absent. -/
def lookupA (d : ArtistTally) (a : String) : Nat :=
  (dget d a).getD 0

/-- A country's artist total in a country-artist dict, zero when absent. -/
def lookupCA (ca : Dict ArtistTally) (c a : String) : Nat :=
  lookupA ((dget ca c).getD []) a

/-- The artist tally of a (year, user) pair, empty when absent. -/
def lookupYU (t : Tally) (y u : String) : ArtistTally :=
  (dget ((dget t y).getD []) u).getD []

/-- Leaf lookup in the full plays tally, zero when absent. -/
def lookup3 (t : Tally) (y u a : String) : Nat :=
  lookupA (lookupYU t y u) a

/-- Sum of all the counts in an artist tally. -/
def sumVals (d : Dict Nat) : Nat :=
  (d.map Prod.snd).sum

/-- Sum of the counts an artist tally records at one artist key (equals
`lookupA` when the keys are distinct). -/
def sumAt (ud : ArtistTally) (a : String) : Nat :=
  (ud.map (fun p => if p.1 = a then p.2 else 0)).sum

/-! Basic lemmas about the dictionary model. -/

theorem except_bind_ok {ε α β : Type} (a : α) (f : α → Except ε β) :
    (Except.ok a >>= f) = f a := rfl

theorem except_bind_err {ε α β : Type} (e : ε) (f : α → Except ε β) :
    ((Except.error e : Except ε α) >>= f) = Except.error e := rfl

theorem except_map_ok {ε α β : Type} (f : α → β) (a : α) :
    (f <$> (Except.ok a : Except ε α)) = Except.ok (f a) := rfl

theorem except_pure_eq {ε α : Type} (a : α) :
    (pure a : Except ε α) = Except.ok a := rfl

theorem dget_dset_self {α : Type} (d : Dict α) (k : String) (v : α) :
    dget (dset d k v) k = some v := by
  induction d with
  | nil => simp [dget, dset]
  | cons p rest ih =>
      obtain ⟨k0, w⟩ := p
      by_cases h : k0 = k
      · simp [dget, dset, h]
      · simp [dget, dset, h, ih]

theorem dget_dset_ne {α : Type} (d : Dict α) {k k' : String} (v : α)
    (h : k' ≠ k) : dget (dset d k v) k' = dget d k' := by
  induction d with
  | nil => simp [dget, dset, Ne.symm h]
  | cons p rest ih =>
      obtain ⟨k0, w⟩ := p
      by_cases hk : k0 = k
      · subst hk
        simp [dget, dset, Ne.symm h]
      · by_cases hk' : k0 = k'
        · simp [dget, dset, hk, hk', h]
        · simp [dget, dset, hk, hk', ih]

theorem dset_eq_of_dget {α : Type} {d : Dict α} {k : String} {v : α}
    (h : dget d k = some v) : dset d k v = d := by
  induction d with
  | nil => simp [dget] at h
  | cons p rest ih =>
      obtain ⟨k0, w⟩ := p
      by_cases hk : k0 = k
      · simp [dget, hk] at h
        simp [dset, hk, h]
      · simp [dget, hk] at h
        simp [dset, hk, ih h]

theorem isSome_dget_dset {α : Type} (d : Dict α) (k k' : String) (v : α)
    (h : (dget d k').isSome) : (dget (dset d k v) k').isSome := by
  by_cases hk : k' = k
  · subst hk
    simp [dget_dset_self]
  · rwa [dget_dset_ne d v hk]

theorem mem_dset {α : Type} {d : Dict α} {k : String} {v : α}
    {p : String × α} (h : p ∈ dset d k v) : p ∈ d ∨ p = (k, v) := by
  induction d with
  | nil =>
      simp [dset] at h
      exact Or.inr h
  | cons q rest ih =>
      obtain ⟨k0, w⟩ := q
      by_cases hk : k0 = k
      · subst hk
        simp [dset] at h
        rcases h with h | h
        · exact Or.inr (by simp [h])
        · exact Or.inl (List.mem_cons_of_mem _ h)
      · simp [dset, hk] at h
        rcases h with h | h
        · exact Or.inl (by simp [h])
        · rcases ih h with h' | h'
          · exact Or.inl (List.mem_cons_of_mem _ h')
          · exact Or.inr h'

theorem keys_dset_subset {α : Type} {d : Dict α} {k x : String} {v : α}
    (h : x ∈ (dset d k v).map Prod.fst) : x ∈ d.map Prod.fst ∨ x = k := by
  rcases List.mem_map.mp h with ⟨p, hp, hx⟩
  rcases mem_dset hp with h' | h'
  · exact Or.inl (List.mem_map.mpr ⟨p, h', hx⟩)
  · subst h'
    exact Or.inr hx.symm

theorem keys_nodup_dset {α : Type} {d : Dict α} (k : String) (v : α)
    (h : (d.map Prod.fst).Nodup) : ((dset d k v).map Prod.fst).Nodup := by
  induction d with
  | nil => simp [dset]
  | cons p rest ih =>
      obtain ⟨k0, w⟩ := p
      rw [List.map_cons, List.nodup_cons] at h
      by_cases hk : k0 = k
      · have e : dset ((k0, w) :: rest) k v = (k0, v) :: rest := by
          simp [dset, hk]
        rw [e, List.map_cons, List.nodup_cons]
        exact h
      · have e : dset ((k0, w) :: rest) k v = (k0, w) :: dset rest k v := by
          simp [dset, hk]
        rw [e, List.map_cons, List.nodup_cons]
        refine ⟨?_, ih h.2⟩
        intro hx
        rcases keys_dset_subset hx with h' | h'
        · exact h.1 h'
        · exact hk h'

theorem sumVals_dset_add {d : Dict Nat} {k : String} {m : Nat}
    (h : dget d k = some m) (n : Nat) :
    sumVals (dset d k (m + n)) = sumVals d + n := by
  induction d with
  | nil => simp [dget] at h
  | cons p rest ih =>
      obtain ⟨k0, w⟩ := p
      by_cases hk : k0 = k
      · simp [dget, hk] at h
        subst h
        simp [dset, hk, sumVals]
        omega
      · simp [dget, hk] at h
        simp [dset, hk, sumVals] at ih ⊢
        rw [ih h]
        omega

theorem sumVals_dset_new {d : Dict Nat} {k : String}
    (h : dget d k = none) (v : Nat) :
    sumVals (dset d k v) = sumVals d + v := by
  induction d with
  | nil => simp [dset, sumVals]
  | cons p rest ih =>
      obtain ⟨k0, w⟩ := p
      by_cases hk : k0 = k
      · simp [dget, hk] at h
      · simp [dget, hk] at h
        simp [dset, hk, sumVals] at ih ⊢
        rw [ih h]
        omega

theorem sumAt_eq_zero {ud : ArtistTally} {a : String}
    (h : a ∉ ud.map Prod.fst) : sumAt ud a = 0 := by
  induction ud with
  | nil => rfl
  | cons p rest ih =>
      obtain ⟨a0, n⟩ := p
      rw [List.map_cons, List.mem_cons] at h
      push_neg at h
      have e1 : sumAt ((a0, n) :: rest) a = sumAt rest a := by
        simp [sumAt, Ne.symm h.1]
      rw [e1]
      exact ih h.2

theorem sumAt_eq_lookupA {ud : ArtistTally} (a : String)
    (h : (ud.map Prod.fst).Nodup) : sumAt ud a = lookupA ud a := by
  induction ud with
  | nil => rfl
  | cons p rest ih =>
      obtain ⟨a0, n⟩ := p
      rw [List.map_cons, List.nodup_cons] at h
      by_cases ha : a0 = a
      · subst ha
        have e1 : sumAt ((a0, n) :: rest) a0 = n + sumAt rest a0 := by
          simp [sumAt]
        have e2 : lookupA ((a0, n) :: rest) a0 = n := by
          simp [lookupA, dget]
        rw [e1, e2, sumAt_eq_zero h.1]
        exact Nat.add_zero n
      · have e1 : sumAt ((a0, n) :: rest) a = sumAt rest a := by
          simp [sumAt, ha]
        have e2 : lookupA ((a0, n) :: rest) a = lookupA rest a := by
          simp [lookupA, dget, ha]
        rw [e1, e2]
        exact ih h.2

/-! Lemmas about the timestamp split. -/

theorem splitChar_ne_nil (sep : Char) (l : List Char) : splitChar sep l ≠ [] := by
  induction l with
  | nil => simp [splitChar]
  | cons c rest ih =>
      by_cases h : c = sep
      · simp [splitChar, h]
      · simp only [splitChar, if_neg h]
        cases hs : splitChar sep rest with
        | nil => simp
        | cons hd tl => simp

theorem headD_splitChar (sep : Char) (l : List Char) :
    (splitChar sep l).headD [] = l.takeWhile (fun c => c ≠ sep) := by
  induction l with
  | nil => rfl
  | cons c rest ih =>
      by_cases h : c = sep
      · simp [splitChar, h, List.takeWhile_cons]
      · simp only [splitChar, if_neg h]
        cases hs : splitChar sep rest with
        | nil => exact absurd hs (splitChar_ne_nil sep rest)
        | cons hd tl =>
            rw [hs] at ih
            simp only [List.headD_cons] at ih
            simp [List.takeWhile_cons, h, ih]

/-- C4: the aggregator derives the year as the substring of the timestamp
strictly before its first `-`, and as the whole timestamp when no `-`
occurs; it is pure string splitting, with no calendar validation. -/
theorem year_from_timestamp_split (ts : String) :
    yearOf ts = yearSpecOf ts ∧ ((∀ c ∈ ts.data, c ≠ '-') → yearOf ts = ts) := by
  constructor
  · unfold yearOf yearSpecOf
    rw [headD_splitChar]
  · intro h
    unfold yearOf
    rw [headD_splitChar]
    have e : ts.data.takeWhile (fun c => c ≠ '-') = ts.data :=
      List.takeWhile_eq_self_iff.mpr (by
        intro c hc
        simpa using h c hc)
    rw [e]

theorem year_from_timestamp_split_witness :
    yearOf "2005-03-23T13:31:43" = yearSpecOf "2005-03-23T13:31:43" ∧
      yearOf "20050323" = "20050323" :=
  ⟨(year_from_timestamp_split "2005-03-23T13:31:43").1,
   (year_from_timestamp_split "20050323").2 (by decide)⟩

/-! Lemmas about the user-country indexer. -/

theorem getF_ok {row : List String} {i : Nat} (h : i < row.length) :
    getF row i = Except.ok (fld row i) := by
  unfold getF fld
  cases hq : row.get? i with
  | none =>
      rw [List.get?_eq_none] at hq
      omega
  | some s => rfl

theorem user_country_step_run (d : Dict String) (row : List String)
    (h : 4 ≤ row.length) :
    user_country_step d row =
      Except.ok
        (if fld row 3 = "" then d
         else dset d (fld row 0) (fld row 3)) := by
  unfold user_country_step
  rw [getF_ok (show (3 : Nat) < row.length by omega), except_bind_ok]
  by_cases hc : fld row 3 = ""
  · simp only [if_pos hc]
    rfl
  · simp only [if_neg hc]
    rw [getF_ok (show (0 : Nat) < row.length by omega), except_bind_ok]
    rfl

theorem ucd_foldlM_ok (rows : List (List String)) (d : Dict String)
    (h : ∀ r ∈ rows, 4 ≤ r.length) :
    rows.foldlM user_country_step d = Except.ok (ucd_run rows d) := by
  induction rows generalizing d with
  | nil => rfl
  | cons r rest ih =>
      rw [List.foldlM_cons, user_country_step_run d r (h r (by simp))]
      show rest.foldlM user_country_step _ = _
      rw [ih _ (fun r' hr' => h r' (List.mem_cons_of_mem _ hr'))]
      rfl

theorem dget_ucd_run (rows : List (List String)) (d : Dict String)
    (u : String) :
    dget (ucd_run rows d) u = (lastCountry rows u <|> dget d u) := by
  induction rows generalizing d with
  | nil => rfl
  | cons r rest ih =>
      have e : ucd_run (r :: rest) d =
          ucd_run rest
            (if fld r 3 = "" then d
             else dset d (fld r 0) (fld r 3)) := rfl
      rw [e, ih]
      rw [show lastCountry (r :: rest) u =
            (lastCountry rest u <|>
              (if fld r 0 = u ∧ fld r 3 ≠ "" then some (fld r 3)
               else none)) from rfl]
      cases hl : lastCountry rest u with
      | some c => rfl
      | none =>
          simp only [Option.none_orElse]
          by_cases hc : fld r 3 = ""
          · simp [hc]
          · by_cases hu : fld r 0 = u
            · simp [hc, hu, dget_dset_self]
            · simp [hc, hu, dget_dset_ne d _ (fun e' => hu e'.symm)]

/-- C3: the indexer discards the header row; afterwards each row with a
non-empty field 3 maps field 0 to field 3 with the last occurrence
winning, and rows with an empty field 3 leave the user absent unless
another row supplies it. -/
theorem index_build_correct (rows : List (List String))
    (h : ∀ r ∈ rows, 4 ≤ r.length) :
    create_user_country_dict rows = Except.ok (ucd_pure rows) ∧
      ∀ u, dget (ucd_pure rows) u = lastCountry rows.tail u := by
  cases rows with
  | nil => exact ⟨rfl, fun u => rfl⟩
  | cons hd rest =>
      refine ⟨?_, ?_⟩
      · exact ucd_foldlM_ok rest [] (fun r hr => h r (List.mem_cons_of_mem _ hr))
      · intro u
        show dget (ucd_run rest []) u = lastCountry rest u
        rw [dget_ucd_run]
        cases lastCountry rest u <;> rfl

theorem index_build_correct_witness :
    create_user_country_dict
        [["hd", "hd", "hd", "hd"], ["u1", "x", "y", "US"], ["u2", "x", "y", ""]]
      = Except.ok (ucd_pure
          [["hd", "hd", "hd", "hd"], ["u1", "x", "y", "US"], ["u2", "x", "y", ""]]) ∧
      dget (ucd_pure
          [["hd", "hd", "hd", "hd"], ["u1", "x", "y", "US"], ["u2", "x", "y", ""]]) "u2"
        = lastCountry
            [["u1", "x", "y", "US"], ["u2", "x", "y", ""]] "u2" :=
  ⟨(index_build_correct _ (by decide)).1,
   (index_build_correct
      [["hd", "hd", "hd", "hd"], ["u1", "x", "y", "US"], ["u2", "x", "y", ""]]
      (by decide)).2 "u2"⟩

/-- C10: a profile row is excluded exactly when its country field is the
empty string; any other string, including whitespace such as a single
space, is stored verbatim with no trimming or normalisation. -/
theorem index_country_verbatim (d : Dict String) (row : List String)
    (h : 4 ≤ row.length) :
    (fld row 3 = "" → user_country_step d row = Except.ok d) ∧
      (fld row 3 ≠ "" →
        user_country_step d row
          = Except.ok (dset d (fld row 0) (fld row 3))) := by
  constructor
  · intro hc
    rw [user_country_step_run d row h, if_pos hc]
  · intro hc
    rw [user_country_step_run d row h, if_neg hc]

theorem index_country_verbatim_witness :
    user_country_step [] ["u1", "x", "y", " "]
      = Except.ok (dset [] "u1" " ") :=
  (index_country_verbatim [] ["u1", "x", "y", " "] (by decide)).2 (by decide)

/-! Lemmas about the play-count aggregator. -/

theorem plays_insert_eq (t : Tally) (y u a : String) :
    plays_insert t y u a =
      dset t y
        (dset ((dget t y).getD []) u
          (dset (lookupYU t y u) a (lookupA (lookupYU t y u) a + 1))) := by
  cases hyd : dget t y with
  | none =>
      simp only [plays_insert, lookupYU, lookupA, hyd, dget, Option.getD_none,
        Nat.zero_add]
  | some yd =>
      cases hud : dget yd u with
      | none =>
          simp only [plays_insert, lookupYU, lookupA, hyd, hud, dget,
            Option.getD_some, Option.getD_none, Nat.zero_add]
      | some ud =>
          cases hn : dget ud a with
          | none =>
              simp only [plays_insert, lookupYU, lookupA, hyd, hud, hn,
                Option.getD_some, Option.getD_none, Nat.zero_add]
          | some n =>
              simp only [plays_insert, lookupYU, lookupA, hyd, hud, hn,
                Option.getD_some]

theorem lookupYU_dset_self (t : Tally) (y u : String) (yd : UserTally) :
    lookupYU (dset t y yd) y u = (dget yd u).getD [] := by
  simp [lookupYU, dget_dset_self]

theorem lookupYU_dset_ne (t : Tally) {y y' : String} (u : String)
    (yd : UserTally) (h : y' ≠ y) :
    lookupYU (dset t y yd) y' u = lookupYU t y' u := by
  simp [lookupYU, dget_dset_ne t yd h]

theorem lookupYU_plays_insert (t : Tally) (y u a y' u' : String) :
    lookupYU (plays_insert t y u a) y' u' =
      if y = y' ∧ u = u' then
        dset (lookupYU t y u) a (lookupA (lookupYU t y u) a + 1)
      else lookupYU t y' u' := by
  rw [plays_insert_eq]
  by_cases hy : y = y'
  · subst hy
    rw [lookupYU_dset_self]
    by_cases hu : u = u'
    · subst hu
      rw [if_pos ⟨rfl, rfl⟩, dget_dset_self]
      rfl
    · rw [if_neg (fun hc => hu hc.2), dget_dset_ne _ _ (fun e => hu e.symm)]
      rfl
  · rw [if_neg (fun hc => hy hc.1),
        lookupYU_dset_ne t u' _ (fun e => hy e.symm)]

theorem lookup3_plays_insert (t : Tally) (y u a y' u' a' : String) :
    lookup3 (plays_insert t y u a) y' u' a' =
      lookup3 t y' u' a' + (if y = y' ∧ u = u' ∧ a = a' then 1 else 0) := by
  unfold lookup3
  rw [lookupYU_plays_insert]
  by_cases hyu : y = y' ∧ u = u'
  · obtain ⟨hy, hu⟩ := hyu
    subst hy
    subst hu
    rw [if_pos ⟨rfl, rfl⟩]
    by_cases ha : a = a'
    · subst ha
      rw [if_pos ⟨rfl, rfl, rfl⟩]
      unfold lookupA
      rw [dget_dset_self]
      rfl
    · rw [if_neg (fun hc => ha hc.2.2)]
      unfold lookupA
      rw [dget_dset_ne _ _ (fun e => ha e.symm), Nat.add_zero]
  · rw [if_neg hyu, if_neg (fun hc => hyu ⟨hc.1, hc.2.1⟩), Nat.add_zero]

theorem sumYU_plays_insert (t : Tally) (y u a y' u' : String) :
    sumVals (lookupYU (plays_insert t y u a) y' u') =
      sumVals (lookupYU t y' u') + (if y = y' ∧ u = u' then 1 else 0) := by
  rw [lookupYU_plays_insert]
  by_cases hyu : y = y' ∧ u = u'
  · obtain ⟨hy, hu⟩ := hyu
    subst hy
    subst hu
    rw [if_pos ⟨rfl, rfl⟩, if_pos ⟨rfl, rfl⟩]
    cases hga : dget (lookupYU t y u) a with
    | some m =>
        have e : lookupA (lookupYU t y u) a = m := by
          simp only [lookupA, hga, Option.getD_some]
        rw [e, sumVals_dset_add hga 1]
    | none =>
        have e : lookupA (lookupYU t y u) a = 0 := by
          simp only [lookupA, hga, Option.getD_none]
        rw [e, sumVals_dset_new hga (0 + 1)]
  · rw [if_neg hyu, if_neg hyu, Nat.add_zero]

theorem plays_step_run (t : Tally) (row : List String) (h : 4 ≤ row.length) :
    plays_step t row =
      Except.ok (plays_insert t (yearOf (fld row 1)) (fld row 0) (fld row 3)) := by
  unfold plays_step
  rw [getF_ok (show (0 : Nat) < row.length by omega), except_bind_ok,
      getF_ok (show (1 : Nat) < row.length by omega), except_bind_ok,
      getF_ok (show (3 : Nat) < row.length by omega), except_bind_ok]
  rfl

theorem plays_foldlM_ok (rows : List (List String)) (t0 : Tally)
    (h : ∀ r ∈ rows, 4 ≤ r.length) :
    rows.foldlM plays_step t0 =
      Except.ok
        (rows.foldl
          (fun t r => plays_insert t (yearOf (fld r 1)) (fld r 0) (fld r 3)) t0) := by
  induction rows generalizing t0 with
  | nil => rfl
  | cons r rest ih =>
      rw [List.foldlM_cons, plays_step_run t0 r (h r (by simp)), except_bind_ok,
          ih _ (fun r' hr' => h r' (List.mem_cons_of_mem _ hr'))]
      rfl

theorem lookup3_plays_fold (rows : List (List String)) (t0 : Tally)
    (y u a : String) :
    lookup3
        (rows.foldl
          (fun t r => plays_insert t (yearOf (fld r 1)) (fld r 0) (fld r 3)) t0)
        y u a
      = lookup3 t0 y u a + countTriple rows y u a := by
  induction rows generalizing t0 with
  | nil => simp [countTriple]
  | cons r rest ih =>
      rw [List.foldl_cons, ih, lookup3_plays_insert]
      unfold countTriple
      rw [List.countP_cons]
      simp only [decide_eq_true_eq]
      omega

theorem sumYU_plays_fold (rows : List (List String)) (t0 : Tally)
    (y u : String) :
    sumVals
        (lookupYU
          (rows.foldl
            (fun t r => plays_insert t (yearOf (fld r 1)) (fld r 0) (fld r 3)) t0)
          y u)
      = sumVals (lookupYU t0 y u) + countYU rows y u := by
  induction rows generalizing t0 with
  | nil => simp [countYU]
  | cons r rest ih =>
      rw [List.foldl_cons, ih, sumYU_plays_insert]
      unfold countYU
      rw [List.countP_cons]
      simp only [decide_eq_true_eq]
      omega

/-- C2: each tally leaf equals the number of event rows deriving that
(year, user, artist) triple; the artist counts of a (year, user) pair sum
to that pair's row count; the empty event sequence yields the empty tally. -/
theorem tally_counts_rows (rows : List (List String))
    (h : ∀ r ∈ rows, 4 ≤ r.length) :
    create_plays_dict rows = Except.ok (plays_run rows) ∧
      (∀ y u a, lookup3 (plays_run rows) y u a = countTriple rows y u a) ∧
      (∀ y u, sumVals (lookupYU (plays_run rows) y u) = countYU rows y u) ∧
      create_plays_dict [] = Except.ok ([] : Tally) := by
  refine ⟨plays_foldlM_ok rows [] h, fun y u a => ?_, fun y u => ?_, rfl⟩
  · rw [plays_run, lookup3_plays_fold]
    show 0 + countTriple rows y u a = countTriple rows y u a
    rw [Nat.zero_add]
  · rw [plays_run, sumYU_plays_fold]
    show 0 + countYU rows y u = countYU rows y u
    rw [Nat.zero_add]

theorem tally_counts_rows_witness :
    create_plays_dict
        [["u1", "2005-01-01T00:00:00", "a1", "ArtistX"],
         ["u1", "2005-02-01T00:00:00", "a1", "ArtistX"],
         ["u1", "2005-01-01T00:00:00", "a2", "ArtistY"]]
      = Except.ok (plays_run
          [["u1", "2005-01-01T00:00:00", "a1", "ArtistX"],
           ["u1", "2005-02-01T00:00:00", "a1", "ArtistX"],
           ["u1", "2005-01-01T00:00:00", "a2", "ArtistY"]]) ∧
      lookup3 (plays_run
          [["u1", "2005-01-01T00:00:00", "a1", "ArtistX"],
           ["u1", "2005-02-01T00:00:00", "a1", "ArtistX"],
           ["u1", "2005-01-01T00:00:00", "a2", "ArtistY"]]) "2005" "u1" "ArtistX"
        = countTriple
            [["u1", "2005-01-01T00:00:00", "a1", "ArtistX"],
             ["u1", "2005-02-01T00:00:00", "a1", "ArtistX"],
             ["u1", "2005-01-01T00:00:00", "a2", "ArtistY"]] "2005" "u1" "ArtistX" ∧
      sumVals (lookupYU (plays_run
          [["u1", "2005-01-01T00:00:00", "a1", "ArtistX"],
           ["u1", "2005-02-01T00:00:00", "a1", "ArtistX"],
           ["u1", "2005-01-01T00:00:00", "a2", "ArtistY"]]) "2005" "u1")
        = countYU
            [["u1", "2005-01-01T00:00:00", "a1", "ArtistX"],
             ["u1", "2005-02-01T00:00:00", "a1", "ArtistX"],
             ["u1", "2005-01-01T00:00:00", "a2", "ArtistY"]] "2005" "u1" :=
  ⟨(tally_counts_rows _ (by decide)).1,
   (tally_counts_rows _ (by decide)).2.1 "2005" "u1" "ArtistX",
   (tally_counts_rows _ (by decide)).2.2.1 "2005" "u1"⟩

/-! Lemmas about the country-artist joiner. -/

theorem lookupCA_dset_self (ca : Dict ArtistTally) (c : String)
    (cd : ArtistTally) (a : String) :
    lookupCA (dset ca c cd) c a = lookupA cd a := by
  simp [lookupCA, dget_dset_self]

theorem lookupCA_dset_ne (ca : Dict ArtistTally) {k c : String}
    (cd : ArtistTally) (a : String) (h : c ≠ k) :
    lookupCA (dset ca k cd) c a = lookupCA ca c a := by
  simp [lookupCA, dget_dset_ne ca cd h]

theorem lookupCA_eq_of_dget {ca : Dict ArtistTally} {c : String}
    {cd : ArtistTally} (hc : dget ca c = some cd) (a : String) :
    lookupCA ca c a = lookupA cd a := by
  simp [lookupCA, hc]

theorem lookupCA_ca_step {ca : Dict ArtistTally} {c' : String}
    {cd : ArtistTally} (hc : dget ca c' = some cd) (a0 : String) (n : Nat)
    (c a : String) :
    lookupCA (ca_step c' ca a0 n) c a =
      lookupCA ca c a + (if c = c' ∧ a0 = a then n else 0) := by
  have step_eq : ca_step c' ca a0 n
      = dset ca c' (dset cd a0 (lookupA cd a0 + n)) := by
    cases hga : dget cd a0 with
    | some m => simp only [ca_step, hc, hga, lookupA, Option.getD_some]
    | none =>
        simp only [ca_step, hc, hga, lookupA, Option.getD_none, Nat.zero_add]
  rw [step_eq]
  by_cases hcc : c = c'
  · subst hcc
    rw [lookupCA_dset_self, lookupCA_eq_of_dget hc]
    by_cases ha : a0 = a
    · subst ha
      rw [if_pos ⟨rfl, rfl⟩]
      unfold lookupA
      rw [dget_dset_self]
      rfl
    · rw [if_neg (fun hx => ha hx.2)]
      unfold lookupA
      rw [dget_dset_ne _ _ (fun e => ha e.symm), Nat.add_zero]
  · rw [lookupCA_dset_ne ca _ a hcc, if_neg (fun hx => hcc hx.1), Nat.add_zero]

theorem ca_step_isSome {ca : Dict ArtistTally} {c' : String}
    (h : (dget ca c').isSome) (a0 : String) (n : Nat) :
    (dget (ca_step c' ca a0 n) c').isSome := by
  obtain ⟨cd, hc⟩ := Option.isSome_iff_exists.mp h
  cases hga : dget cd a0 with
  | some m =>
      simp only [ca_step, hc, hga]
      rw [dget_dset_self]
      rfl
  | none =>
      simp only [ca_step, hc, hga]
      rw [dget_dset_self]
      rfl

theorem lookupCA_artist_fold (ud : List (String × Nat))
    (ca : Dict ArtistTally) {c' : String} (h : (dget ca c').isSome)
    (c a : String) :
    lookupCA (ud.foldl (fun acc p => ca_step c' acc p.1 p.2) ca) c a =
      lookupCA ca c a + (if c = c' then sumAt ud a else 0) := by
  induction ud generalizing ca with
  | nil => by_cases hcc : c = c' <;> simp [sumAt, hcc]
  | cons p rest ih =>
      obtain ⟨a0, n⟩ := p
      rw [List.foldl_cons]
      obtain ⟨cd, hc⟩ := Option.isSome_iff_exists.mp h
      rw [ih _ (ca_step_isSome h a0 n), lookupCA_ca_step hc a0 n c a]
      have e : sumAt ((a0, n) :: rest) a
          = (if a0 = a then n else 0) + sumAt rest a := by
        simp [sumAt]
      rw [e]
      by_cases hcc : c = c' <;> by_cases ha : a0 = a <;>
        (simp [hcc, ha]; try omega)

theorem lookupCA_ensure (ca : Dict ArtistTally) (c' c a : String) :
    lookupCA (if (dget ca c').isSome then ca else dset ca c' []) c a
      = lookupCA ca c a := by
  by_cases h : (dget ca c').isSome
  · rw [if_pos h]
  · rw [if_neg h]
    by_cases hcc : c = c'
    · subst hcc
      rw [lookupCA_dset_self]
      have hn : dget ca c = none := Option.not_isSome_iff_eq_none.mp h
      simp [lookupCA, lookupA, hn, dget]
    · rw [lookupCA_dset_ne ca _ a hcc]

theorem ensure_isSome (ca : Dict ArtistTally) (c' : String) :
    (dget (if (dget ca c').isSome then ca else dset ca c' []) c').isSome := by
  by_cases h : (dget ca c').isSome
  · rwa [if_pos h]
  · rw [if_neg h, dget_dset_self]
    rfl

theorem lookupCA_join_user (index : Dict String) (ca : Dict ArtistTally)
    (u : String) (ud : ArtistTally) (c a : String) :
    lookupCA (join_user index ca u ud) c a =
      lookupCA ca c a + (if dget index u = some c then sumAt ud a else 0) := by
  unfold join_user dget_exc
  cases hg : dget index u with
  | none => simp
  | some c' =>
      show lookupCA
          (ud.foldl (fun acc p => ca_step c' acc p.1 p.2)
            (if (dget ca c').isSome then ca else dset ca c' [])) c a
        = lookupCA ca c a + (if some c' = some c then sumAt ud a else 0)
      rw [lookupCA_artist_fold ud _ (ensure_isSome ca c') c a, lookupCA_ensure]
      by_cases hcc : c = c'
      · rw [if_pos hcc, if_pos (by rw [hcc])]
      · rw [if_neg hcc, if_neg (fun hx => hcc (Option.some.inj hx).symm)]

theorem lookupCA_user_fold (yd : UserTally) (ca : Dict ArtistTally)
    (index : Dict String) (c a : String) :
    lookupCA (yd.foldl (fun acc p => join_user index acc p.1 p.2) ca) c a =
      lookupCA ca c a +
        (yd.map (fun p => if dget index p.1 = some c then sumAt p.2 a else 0)).sum := by
  induction yd generalizing ca with
  | nil => simp
  | cons p rest ih =>
      rw [List.foldl_cons, ih, lookupCA_join_user]
      simp only [List.map_cons, List.sum_cons]
      omega

/-- C1: for every index, year slice of the tally, country and artist, the
joiner's output maps (country, artist) to the sum of that user-artist
count over exactly the users the index maps to that country; users with
no index entry contribute zero. -/
theorem join_totals_correct (index : Dict String) (yd : UserTally)
    (h : ∀ p ∈ yd, ((p.2.map Prod.fst).Nodup)) (c a : String) :
    lookupCA (create_country_artist_year index yd) c a =
      (yd.map (fun p => if dget index p.1 = some c then lookupA p.2 a else 0)).sum := by
  unfold create_country_artist_year
  rw [lookupCA_user_fold]
  have e0 : lookupCA [] c a = 0 := rfl
  rw [e0, Nat.zero_add]
  refine congrArg List.sum (List.map_congr_left (fun p hp => ?_))
  by_cases hc : dget index p.1 = some c
  · rw [if_pos hc, if_pos hc, sumAt_eq_lookupA a (h p hp)]
  · rw [if_neg hc, if_neg hc]

theorem join_totals_correct_witness :
    lookupCA (create_country_artist_year [("u1", "US")]
        [("u1", [("ArtistX", 2), ("ArtistY", 1)])]) "US" "ArtistX"
      = ([("u1", [("ArtistX", 2), ("ArtistY", 1)])].map
          (fun p =>
            if dget [("u1", "US")] p.1 = some "US" then lookupA p.2 "ArtistX"
            else 0)).sum :=
  join_totals_correct [("u1", "US")] [("u1", [("ArtistX", 2), ("ArtistY", 1)])]
    (by decide) "US" "ArtistX"

/-! Short rows: the aggregator propagates the raw IndexError. -/

theorem plays_step_short {t : Tally} {bad : List String}
    (hbad : bad.length < 4) :
    plays_step t bad = Except.error PyErr.indexError := by
  have h3 : bad.get? 3 = none := List.get?_eq_none.mpr (by omega)
  unfold plays_step getF
  cases hq0 : bad.get? 0 with
  | none => rfl
  | some s0 =>
      cases hq1 : bad.get? 1 with
      | none => rfl
      | some s1 =>
          rw [h3]
          rfl

theorem foldlM_plays_short (pre : List (List String)) (bad : List String)
    (rest : List (List String)) (t0 : Tally)
    (hpre : ∀ r ∈ pre, 4 ≤ r.length) (hbad : bad.length < 4) :
    (pre ++ bad :: rest).foldlM plays_step t0 = Except.error PyErr.indexError := by
  induction pre generalizing t0 with
  | nil =>
      rw [List.nil_append, List.foldlM_cons, plays_step_short hbad,
          except_bind_err]
  | cons r pre' ih =>
      rw [List.cons_append, List.foldlM_cons,
          plays_step_run t0 r (hpre r (by simp)), except_bind_ok]
      exact ih _ (fun r' hr' => hpre r' (List.mem_cons_of_mem _ hr'))

/-- C5 (counterexample): on a one-field event row the aggregator fails
with the raw IndexError of the out-of-bounds access, which is not the
spec's MalformedRecordError. -/
theorem short_row_error_counterexample :
    create_plays_dict [["u1"]] = Except.error PyErr.indexError ∧
      PyErr.indexError ≠ PyErr.malformedRecord :=
  ⟨rfl, by decide⟩

/-- C5 (amended): for every event row with fewer than 4 fields, the
aggregator fails by propagating the raw out-of-bounds IndexError of the
field access — it never raises MalformedRecordError. -/
theorem short_row_raises_index_error (pre : List (List String))
    (bad : List String) (rest : List (List String))
    (hpre : ∀ r ∈ pre, 4 ≤ r.length) (hbad : bad.length < 4) :
    create_plays_dict (pre ++ bad :: rest) = Except.error PyErr.indexError :=
  foldlM_plays_short pre bad rest [] hpre hbad

theorem short_row_raises_index_error_witness :
    create_plays_dict ([] ++ ["u1"] :: []) = Except.error PyErr.indexError :=
  short_row_raises_index_error [] ["u1"] [] (by decide) (by decide)

/-! The joiner's silent skip of users missing from the index. -/

/-- C6 (counterexample): with an empty index and a tally containing user
u1, the lookup `user_dict[user]` the joiner performs raises KeyError (the
skip is a caught exception used for control flow, not a lookup-miss
branch), while the join itself still completes, skipping the user. -/
theorem missing_user_lookup_raises :
    dget_exc ([] : Dict String) "u1" = Except.error PyErr.keyError ∧
      create_country_artist_year [] [("u1", [("ArtistX", 1)])] = [] :=
  ⟨rfl, rfl⟩

theorem join_filter_fold (yd : UserTally) (index : Dict String)
    (ca : Dict ArtistTally) :
    yd.foldl (fun acc p => join_user index acc p.1 p.2) ca =
      (yd.filter (fun p => (dget index p.1).isSome)).foldl
        (fun acc p => join_user index acc p.1 p.2) ca := by
  induction yd generalizing ca with
  | nil => rfl
  | cons p rest ih =>
      rw [List.foldl_cons, List.filter_cons]
      cases hg : dget index p.1 with
      | none =>
          have hskip : join_user index ca p.1 p.2 = ca := by
            simp only [join_user, dget_exc, hg]
          rw [hskip, if_neg (by simp)]
          exact ih ca
      | some c' =>
          rw [if_pos (by simp), List.foldl_cons]
          exact ih _

/-- C6 (amended): a user present in the year's tally but absent from the
index is skipped silently and the output equals the one computed from
the tally restricted to indexed users; the skip, however, is implemented
by catching the KeyError of the index lookup, not by a lookup-miss
branch. -/
theorem join_skips_unindexed_users (index : Dict String) (yd : UserTally) :
    create_country_artist_year index yd =
      create_country_artist_year index
        (yd.filter (fun p => (dget index p.1).isSome)) :=
  join_filter_fold yd index []

/-! Positivity of all stored counts. -/

theorem dget_mem {α : Type} {d : Dict α} {k : String} {v : α}
    (h : dget d k = some v) : (k, v) ∈ d := by
  induction d with
  | nil => simp [dget] at h
  | cons p rest ih =>
      obtain ⟨k0, w⟩ := p
      by_cases hk : k0 = k
      · subst hk
        simp [dget] at h
        subst h
        exact List.mem_cons_self _ _
      · simp [dget, hk] at h
        exact List.mem_cons_of_mem _ (ih h)

theorem lookupYU_mem {t : Tally} {y u : String} {z : String × Nat}
    (hz : z ∈ lookupYU t y u) :
    ∃ yd ud, dget t y = some yd ∧ dget yd u = some ud ∧ z ∈ ud := by
  unfold lookupYU at hz
  cases hyd : dget t y with
  | none =>
      rw [hyd] at hz
      simp [dget] at hz
  | some yd =>
      rw [hyd] at hz
      simp only [Option.getD_some] at hz
      cases hud : dget yd u with
      | none =>
          rw [hud] at hz
          simp at hz
      | some ud =>
          rw [hud] at hz
          simp only [Option.getD_some] at hz
          exact ⟨yd, ud, rfl, hud, hz⟩

theorem plays_insert_pos {t : Tally}
    (h : ∀ p ∈ t, ∀ q ∈ p.2, ∀ z ∈ q.2, 1 ≤ z.2) (y u a : String) :
    ∀ p ∈ plays_insert t y u a, ∀ q ∈ p.2, ∀ z ∈ q.2, 1 ≤ z.2 := by
  rw [plays_insert_eq]
  intro p hp q hq z hz
  rcases mem_dset hp with hp' | hp'
  · exact h p hp' q hq z hz
  · subst hp'
    rcases mem_dset hq with hq' | hq'
    · cases hyd : dget t y with
      | none =>
          rw [hyd] at hq'
          simp at hq'
      | some yd =>
          rw [hyd] at hq'
          simp only [Option.getD_some] at hq'
          exact h (y, yd) (dget_mem hyd) q hq' z hz
    · subst hq'
      rcases mem_dset hz with hz' | hz'
      · obtain ⟨yd, ud, hyd, hud, hzud⟩ := lookupYU_mem hz'
        exact h (y, yd) (dget_mem hyd) (u, ud) (dget_mem hud) z hzud
      · subst hz'
        show 1 ≤ lookupA (lookupYU t y u) a + 1
        omega

theorem plays_step_pos {t0 t1 : Tally} {r : List String}
    (h0 : ∀ p ∈ t0, ∀ q ∈ p.2, ∀ z ∈ q.2, 1 ≤ z.2)
    (hs : plays_step t0 r = Except.ok t1) :
    ∀ p ∈ t1, ∀ q ∈ p.2, ∀ z ∈ q.2, 1 ≤ z.2 := by
  by_cases hl : 4 ≤ r.length
  · rw [plays_step_run t0 r hl] at hs
    have e := Except.ok.inj hs
    subst e
    exact plays_insert_pos h0 _ _ _
  · rw [plays_step_short (by omega)] at hs
    exact absurd hs (by simp)

theorem plays_fold_pos (rows : List (List String)) (t0 : Tally)
    (h0 : ∀ p ∈ t0, ∀ q ∈ p.2, ∀ z ∈ q.2, 1 ≤ z.2) {t : Tally}
    (hok : rows.foldlM plays_step t0 = Except.ok t) :
    ∀ p ∈ t, ∀ q ∈ p.2, ∀ z ∈ q.2, 1 ≤ z.2 := by
  induction rows generalizing t0 with
  | nil =>
      have e : t0 = t := Except.ok.inj hok
      subst e
      exact h0
  | cons r rest ih =>
      rw [List.foldlM_cons] at hok
      cases hs : plays_step t0 r with
      | error e =>
          rw [hs, except_bind_err] at hok
          exact absurd hok (by simp)
      | ok t1 =>
          rw [hs, except_bind_ok] at hok
          exact ih t1 (plays_step_pos h0 hs) hok

theorem ca_step_eq {ca : Dict ArtistTally} {c' : String} {cd : ArtistTally}
    (hc : dget ca c' = some cd) (a0 : String) (n : Nat) :
    ca_step c' ca a0 n = dset ca c' (dset cd a0 (lookupA cd a0 + n)) := by
  cases hga : dget cd a0 with
  | some m => simp only [ca_step, hc, hga, lookupA, Option.getD_some]
  | none => simp only [ca_step, hc, hga, lookupA, Option.getD_none, Nat.zero_add]

theorem ca_step_none {ca : Dict ArtistTally} {c' : String}
    (hc : dget ca c' = none) (a0 : String) (n : Nat) :
    ca_step c' ca a0 n = ca := by
  simp only [ca_step, hc]

theorem ca_step_pos {ca : Dict ArtistTally} {c' : String}
    (h : ∀ p ∈ ca, ∀ q ∈ p.2, 1 ≤ q.2) {a0 : String} {n : Nat} (hn : 1 ≤ n) :
    ∀ p ∈ ca_step c' ca a0 n, ∀ q ∈ p.2, 1 ≤ q.2 := by
  cases hc : dget ca c' with
  | none =>
      rw [ca_step_none hc]
      exact h
  | some cd =>
      rw [ca_step_eq hc]
      intro p hp q hq
      rcases mem_dset hp with hp' | hp'
      · exact h p hp' q hq
      · subst hp'
        rcases mem_dset hq with hq' | hq'
        · exact h (c', cd) (dget_mem hc) q hq'
        · subst hq'
          show 1 ≤ lookupA cd a0 + n
          omega

theorem artist_fold_pos (ud : List (String × Nat)) {c' : String}
    (ca : Dict ArtistTally) (h : ∀ p ∈ ca, ∀ q ∈ p.2, 1 ≤ q.2)
    (hud : ∀ q ∈ ud, 1 ≤ q.2) :
    ∀ p ∈ ud.foldl (fun acc p => ca_step c' acc p.1 p.2) ca,
      ∀ q ∈ p.2, 1 ≤ q.2 := by
  induction ud generalizing ca with
  | nil => exact h
  | cons q0 rest ih =>
      rw [List.foldl_cons]
      exact ih _ (ca_step_pos h (hud q0 (by simp)))
        (fun q hq => hud q (List.mem_cons_of_mem _ hq))

theorem ensure_pos {ca : Dict ArtistTally}
    (h : ∀ p ∈ ca, ∀ q ∈ p.2, 1 ≤ q.2) (c' : String) :
    ∀ p ∈ (if (dget ca c').isSome then ca else dset ca c' []),
      ∀ q ∈ p.2, 1 ≤ q.2 := by
  by_cases hc : (dget ca c').isSome
  · rw [if_pos hc]
    exact h
  · rw [if_neg hc]
    intro p hp q hq
    rcases mem_dset hp with hp' | hp'
    · exact h p hp' q hq
    · subst hp'
      simp at hq

theorem join_user_pos {index : Dict String} {ca : Dict ArtistTally}
    (h : ∀ p ∈ ca, ∀ q ∈ p.2, 1 ≤ q.2) {u : String} {ud : ArtistTally}
    (hud : ∀ q ∈ ud, 1 ≤ q.2) :
    ∀ p ∈ join_user index ca u ud, ∀ q ∈ p.2, 1 ≤ q.2 := by
  cases hg : dget index u with
  | none =>
      intro p hp
      simp only [join_user, dget_exc, hg] at hp
      exact h p hp
  | some c' =>
      intro p hp
      simp only [join_user, dget_exc, hg] at hp
      exact artist_fold_pos ud _ (ensure_pos h c') hud p hp

theorem user_fold_pos (yd : UserTally) (index : Dict String) :
    ∀ ca : Dict ArtistTally, (∀ p ∈ ca, ∀ q ∈ p.2, 1 ≤ q.2) →
      (∀ p ∈ yd, ∀ q ∈ p.2, 1 ≤ q.2) →
      ∀ p ∈ yd.foldl (fun acc p => join_user index acc p.1 p.2) ca,
        ∀ q ∈ p.2, 1 ≤ q.2 := by
  induction yd with
  | nil =>
      intro ca hca _
      exact hca
  | cons p0 rest ih =>
      intro ca hca hyd
      rw [List.foldl_cons]
      exact ih _ (join_user_pos hca (hyd p0 (by simp)))
        (fun p hp => hyd p (List.mem_cons_of_mem _ hp))

/-- C9: every leaf count of a tally the aggregator builds is at least 1,
and every total in a joiner output built from positive per-user counts is
at least 1 — no key is ever stored with a zero count. -/
theorem counts_strictly_positive (rows : List (List String)) (t : Tally)
    (index : Dict String) (yd : UserTally)
    (hok : create_plays_dict rows = Except.ok t)
    (hyd : ∀ p ∈ yd, ∀ q ∈ p.2, 1 ≤ q.2) :
    (∀ p ∈ t, ∀ q ∈ p.2, ∀ z ∈ q.2, 1 ≤ z.2) ∧
      (∀ p ∈ create_country_artist_year index yd, ∀ q ∈ p.2, 1 ≤ q.2) :=
  ⟨plays_fold_pos rows [] (by simp) hok,
   user_fold_pos yd index [] (by simp) hyd⟩

theorem counts_strictly_positive_witness :
    1 ≤ (("ArtistX", 1) : String × Nat).2 ∧
      1 ≤ (("ArtistX", 2) : String × Nat).2 :=
  ⟨(counts_strictly_positive [["u1", "2005-01-01", "a1", "ArtistX"]]
      [("2005", [("u1", [("ArtistX", 1)])])] [("u1", "US")]
      [("u1", [("ArtistX", 2)])] (by rfl) (by decide)).1
      ("2005", [("u1", [("ArtistX", 1)])]) (by decide)
      ("u1", [("ArtistX", 1)]) (by decide) ("ArtistX", 1) (by decide),
   (counts_strictly_positive [["u1", "2005-01-01", "a1", "ArtistX"]]
      [("2005", [("u1", [("ArtistX", 1)])])] [("u1", "US")]
      [("u1", [("ArtistX", 2)])] (by rfl) (by decide)).2
      ("US", [("ArtistX", 2)]) (by decide) ("ArtistX", 2) (by decide)⟩

/-! The joiner's interaction with the blob store. -/

theorem ca_name_ne (y : String) (s : String) (hs : s.length < 15) :
    y ++ "_country_artist" ≠ s := by
  intro h
  have hl := congrArg String.length h
  rw [String.length_append] at hl
  have h15 : ("_country_artist" : String).length = 15 := by decide
  rw [h15] at hl
  omega

theorem append_suffix_inj {y1 y2 s : String} (h : y1 ++ s = y2 ++ s) :
    y1 = y2 := by
  have hd := congrArg String.data h
  simp [String.data_append] at hd
  exact String.ext hd

theorem dget_joiner_saves_untouched (t : Tally) (index : Dict String)
    (store : Store) {n : String}
    (hn : ∀ p ∈ t, n ≠ p.1 ++ "_country_artist") :
    dget (joiner_saves index t store) n = dget store n := by
  induction t generalizing store with
  | nil => rfl
  | cons p rest ih =>
      show dget (joiner_saves index rest
        (store_dict_pickle store (p.1 ++ "_country_artist")
          (Blob.ca (create_country_artist_year index p.2)))) n = dget store n
      rw [ih _ (fun q hq => hn q (List.mem_cons_of_mem _ hq))]
      exact dget_dset_ne store _ (hn p (by simp))

theorem dget_joiner_saves_mem (t : Tally) (index : Dict String)
    (store : Store) (hnd : (t.map Prod.fst).Nodup) {p : String × UserTally}
    (hp : p ∈ t) :
    dget (joiner_saves index t store) (p.1 ++ "_country_artist")
      = some (Blob.ca (create_country_artist_year index p.2)) := by
  induction t generalizing store with
  | nil => simp at hp
  | cons q rest ih =>
      rw [List.map_cons, List.nodup_cons] at hnd
      show dget (joiner_saves index rest
        (store_dict_pickle store (q.1 ++ "_country_artist")
          (Blob.ca (create_country_artist_year index q.2))))
        (p.1 ++ "_country_artist") = _
      rcases List.mem_cons.mp hp with hp' | hp'
      · subst hp'
        rw [dget_joiner_saves_untouched rest index _
            (fun z hz heq =>
              hnd.1 (List.mem_map.mpr ⟨z, hz, (append_suffix_inj heq).symm⟩))]
        exact dget_dset_self store _ _
      · exact ih _ hnd.2 hp'

theorem joiner_fails_notfound {store : Store}
    (h : dget store "user_country" = none ∨ dget store "plays" = none) :
    create_country_artist_dict store = Except.error PyErr.notFoundError := by
  unfold create_country_artist_dict load_dict_pickle
  rcases h with h | h
  · rw [h]
    rfl
  · cases hu : dget store "user_country" with
    | none => rfl
    | some b =>
        rw [h]
        rfl

/-- C8: the joiner loads both "user_country" and "plays" before computing
anything — if either logical name is missing it fails with NotFoundError
and persists nothing — and on success it saves exactly one output per
year of the tally, under the name "year_country_artist", leaving every
other logical name unchanged. -/
theorem joiner_loads_then_saves (store : Store) :
    ((dget store "user_country" = none ∨ dget store "plays" = none) →
      create_country_artist_dict store = Except.error PyErr.notFoundError) ∧
    (∀ index t, dget store "user_country" = some (Blob.uc index) →
      dget store "plays" = some (Blob.pl t) → (t.map Prod.fst).Nodup →
      create_country_artist_dict store
          = Except.ok (joiner_saves index t store) ∧
        (∀ p ∈ t, dget (joiner_saves index t store) (p.1 ++ "_country_artist")
            = some (Blob.ca (create_country_artist_year index p.2))) ∧
        (∀ n : String, (∀ p ∈ t, n ≠ p.1 ++ "_country_artist") →
          dget (joiner_saves index t store) n = dget store n)) := by
  refine ⟨fun h => joiner_fails_notfound h, fun index t hu hp hnd => ⟨?_, ?_, ?_⟩⟩
  · unfold create_country_artist_dict load_dict_pickle
    rw [hu, hp]
    rfl
  · intro p hpm
    exact dget_joiner_saves_mem t index store hnd hpm
  · intro n hn
    exact dget_joiner_saves_untouched t index store hn

theorem joiner_loads_then_saves_witness :
    create_country_artist_dict ([] : Store) = Except.error PyErr.notFoundError ∧
      create_country_artist_dict
          [("user_country", Blob.uc [("u1", "US")]),
           ("plays", Blob.pl [("2005", [("u1", [("ArtistX", 1)])])])]
        = Except.ok (joiner_saves [("u1", "US")]
            [("2005", [("u1", [("ArtistX", 1)])])]
            [("user_country", Blob.uc [("u1", "US")]),
             ("plays", Blob.pl [("2005", [("u1", [("ArtistX", 1)])])])]) ∧
      dget (joiner_saves [("u1", "US")]
          [("2005", [("u1", [("ArtistX", 1)])])]
          [("user_country", Blob.uc [("u1", "US")]),
           ("plays", Blob.pl [("2005", [("u1", [("ArtistX", 1)])])])]) "plays"
        = dget
            [("user_country", Blob.uc [("u1", "US")]),
             ("plays", Blob.pl [("2005", [("u1", [("ArtistX", 1)])])])] "plays" :=
  ⟨(joiner_loads_then_saves []).1 (Or.inl rfl),
   ((joiner_loads_then_saves
      [("user_country", Blob.uc [("u1", "US")]),
       ("plays", Blob.pl [("2005", [("u1", [("ArtistX", 1)])])])]).2
      [("u1", "US")] [("2005", [("u1", [("ArtistX", 1)])])]
      rfl rfl (by decide)).1,
   ((joiner_loads_then_saves
      [("user_country", Blob.uc [("u1", "US")]),
       ("plays", Blob.pl [("2005", [("u1", [("ArtistX", 1)])])])]).2
      [("u1", "US")] [("2005", [("u1", [("ArtistX", 1)])])]
      rfl rfl (by decide)).2.2 "plays" (by decide)⟩

/-! Determinism and idempotence of the whole pipeline. -/

theorem plays_insert_keys_nodup {t : Tally} (h : (t.map Prod.fst).Nodup)
    (y u a : String) : ((plays_insert t y u a).map Prod.fst).Nodup := by
  rw [plays_insert_eq]
  exact keys_nodup_dset _ _ h

theorem plays_fold_keys_nodup (rows : List (List String)) (t0 : Tally)
    (h0 : (t0.map Prod.fst).Nodup) {t : Tally}
    (hok : rows.foldlM plays_step t0 = Except.ok t) :
    (t.map Prod.fst).Nodup := by
  induction rows generalizing t0 with
  | nil =>
      have e : t0 = t := Except.ok.inj hok
      subst e
      exact h0
  | cons r rest ih =>
      rw [List.foldlM_cons] at hok
      cases hs : plays_step t0 r with
      | error err =>
          rw [hs, except_bind_err] at hok
          exact absurd hok (by simp)
      | ok t1 =>
          rw [hs, except_bind_ok] at hok
          refine ih t1 ?_ hok
          by_cases hl : 4 ≤ r.length
          · rw [plays_step_run t0 r hl] at hs
            have e := Except.ok.inj hs
            rw [← e]
            exact plays_insert_keys_nodup h0 _ _ _
          · rw [plays_step_short (by omega)] at hs
            exact absurd hs (by simp)

theorem joiner_saves_id {index : Dict String} {t : Tally} {store : Store}
    (h : ∀ p ∈ t, dget store (p.1 ++ "_country_artist")
        = some (Blob.ca (create_country_artist_year index p.2))) :
    joiner_saves index t store = store := by
  induction t with
  | nil => rfl
  | cons q rest ih =>
      have h1 : store_dict_pickle store (q.1 ++ "_country_artist")
          (Blob.ca (create_country_artist_year index q.2)) = store :=
        dset_eq_of_dget (h q (by simp))
      show joiner_saves index rest
        (store_dict_pickle store (q.1 ++ "_country_artist")
          (Blob.ca (create_country_artist_year index q.2))) = store
      rw [h1]
      exact ih (fun p hp => h p (List.mem_cons_of_mem _ hp))

theorem joiner_on_ready_store (index : Dict String) (t : Tally)
    (store : Store) (hu : dget store "user_country" = some (Blob.uc index))
    (hp : dget store "plays" = some (Blob.pl t)) :
    create_country_artist_dict store = Except.ok (joiner_saves index t store) := by
  unfold create_country_artist_dict load_dict_pickle
  rw [hu, hp]
  rfl

theorem run_pipeline_eq (p e : List (List String)) (s : Store)
    {uc : Dict String} {t : Tally}
    (hu : create_user_country_dict p = Except.ok uc)
    (ht : create_plays_dict e = Except.ok t) :
    run_pipeline p e s =
      Except.ok (joiner_saves uc t
        (dset (dset s "user_country" (Blob.uc uc)) "plays" (Blob.pl t))) := by
  unfold run_pipeline
  rw [hu, except_bind_ok, ht, except_bind_ok]
  exact joiner_on_ready_store uc t _
    (by
      unfold store_dict_pickle
      rw [dget_dset_ne _ _ (show ("user_country" : String) ≠ "plays" by decide),
          dget_dset_self])
    (dget_dset_self _ _ _)

/-- C7: the pipeline is a deterministic function of its input rows — two
runs over equal rows from the same store persist equal outputs — and
rerunning it over the store the first run produced yields that same
store unchanged. -/
theorem pipeline_idempotent (p1 p2 e1 e2 : List (List String))
    (s s1 : Store) (hp : p1 = p2) (he : e1 = e2)
    (h : run_pipeline p1 e1 s = Except.ok s1) :
    run_pipeline p2 e2 s = Except.ok s1 ∧
      run_pipeline p2 e2 s1 = Except.ok s1 := by
  subst hp
  subst he
  refine ⟨h, ?_⟩
  cases hu : create_user_country_dict p1 with
  | error err =>
      unfold run_pipeline at h
      rw [hu, except_bind_err] at h
      exact absurd h (by simp)
  | ok uc =>
      cases ht : create_plays_dict e1 with
      | error err =>
          unfold run_pipeline at h
          rw [hu, except_bind_ok, ht, except_bind_err] at h
          exact absurd h (by simp)
      | ok t =>
          have hnd : (t.map Prod.fst).Nodup :=
            plays_fold_keys_nodup e1 [] (by simp) ht
          have hs1 : s1 = joiner_saves uc t
              (dset (dset s "user_country" (Blob.uc uc)) "plays" (Blob.pl t)) :=
            Except.ok.inj (h.symm.trans (run_pipeline_eq p1 e1 s hu ht))
          have hucn : ∀ q ∈ t, ("user_country" : String) ≠ q.1 ++ "_country_artist" :=
            fun q _ => Ne.symm (ca_name_ne q.1 _ (by decide))
          have hpln : ∀ q ∈ t, ("plays" : String) ≠ q.1 ++ "_country_artist" :=
            fun q _ => Ne.symm (ca_name_ne q.1 _ (by decide))
          have huc1 : dget s1 "user_country" = some (Blob.uc uc) := by
            rw [hs1, dget_joiner_saves_untouched t uc _ hucn,
                dget_dset_ne _ _ (show ("user_country" : String) ≠ "plays" by decide),
                dget_dset_self]
          have hpl1 : dget s1 "plays" = some (Blob.pl t) := by
            rw [hs1, dget_joiner_saves_untouched t uc _ hpln, dget_dset_self]
          have hsets : dset (dset s1 "user_country" (Blob.uc uc)) "plays" (Blob.pl t) = s1 := by
            rw [dset_eq_of_dget huc1, dset_eq_of_dget hpl1]
          rw [run_pipeline_eq p1 e1 s1 hu ht, hsets]
          have hvals : ∀ q ∈ t, dget s1 (q.1 ++ "_country_artist")
              = some (Blob.ca (create_country_artist_year uc q.2)) := by
            intro q hq
            rw [hs1]
            exact dget_joiner_saves_mem t uc _ hnd hq
          rw [joiner_saves_id hvals]

theorem pipeline_idempotent_witness :
    run_pipeline [["h", "h", "h", "h"], ["u1", "a", "b", "US"]]
        [["u1", "2005-01-01", "a1", "ArtistX"]] []
      = Except.ok
          [("user_country", Blob.uc [("u1", "US")]),
           ("plays", Blob.pl [("2005", [("u1", [("ArtistX", 1)])])]),
           ("2005_country_artist", Blob.ca [("US", [("ArtistX", 1)])])] ∧
      run_pipeline [["h", "h", "h", "h"], ["u1", "a", "b", "US"]]
        [["u1", "2005-01-01", "a1", "ArtistX"]]
        [("user_country", Blob.uc [("u1", "US")]),
         ("plays", Blob.pl [("2005", [("u1", [("ArtistX", 1)])])]),
         ("2005_country_artist", Blob.ca [("US", [("ArtistX", 1)])])]
      = Except.ok
          [("user_country", Blob.uc [("u1", "US")]),
           ("plays", Blob.pl [("2005", [("u1", [("ArtistX", 1)])])]),
           ("2005_country_artist", Blob.ca [("US", [("ArtistX", 1)])])] :=
  pipeline_idempotent _ _ _ _ []
    [("user_country", Blob.uc [("u1", "US")]),
     ("plays", Blob.pl [("2005", [("u1", [("ArtistX", 1)])])]),
     ("2005_country_artist", Blob.ca [("US", [("ArtistX", 1)])])]
    rfl rfl (by rfl)

end MusicData
